import Mathlib

/-!
Shallow embedding of `node-cache-manager-s3` (`src/index.js`), the S3-backed
cache-manager store.  The embedding follows the source line by line:

* `Options` is the merged option record (`defaultOptions` plus constructor
  options); `OptionsPatch` is a per-call override object and `mergeOptions`
  models `Object.assign({}, this.options, options)`.
* `ExtLib` packages the behavior of external npm/node libraries that the source
  calls (`checksum`, `Buffer.toString('base64')`, `url`/`querystring`
  normalization, `path.format(path.parse(...))`, `moment().add(...)`).
  These are parameters of the embedding, not repository code; theorems are
  proved for every `ExtLib`, and witnesses instantiate a concrete one.
* Node's `path.normalize` / `path.join` (posix) are modelled concretely
  (`posixNormalize`, `pathJoin`) because `_getPath` and `_normalizePath`
  depend on their exact output.
* The S3 backend is modelled as an association list of physical keys to
  objects (`S3State`), with `getObject` / `putObject` / `deleteObject` /
  `headObject` / paginated `listObjectsV2` as in the AWS API surface the
  source uses.  A missing key yields an error with `statusCode = 404`.
-/

/-- JS `String.prototype.slice(begin, end)` for non-negative indices:
take the substring from `b` up to (exclusive) `e`, clamped to the string. -/
def jsSlice (s : String) (b e : Nat) : String :=
  String.mk ((s.data.drop b).take (e - b))

/-- JS `Array.prototype.join(sep)` on an array of strings. -/
def joinStrings (sep : String) : List String → String
  | [] => ""
  | [x] => x
  | x :: y :: xs => x ++ sep ++ joinStrings sep (y :: xs)

/-- Split a character list at every `'/'` (occurrences of the separator
delimit segments; leading, trailing and doubled separators produce empty
segments, exactly as JS `String.prototype.split('/')`). -/
def splitSlashAux : List Char → List Char → List (List Char)
  | [], acc => [acc.reverse]
  | c :: cs, acc =>
    if c = '/' then acc.reverse :: splitSlashAux cs []
    else splitSlashAux cs (c :: acc)

/-- Segments of a character list, separated by `'/'`. -/
def splitSlash (l : List Char) : List (List Char) := splitSlashAux l []

/-- The segment after the last `'/'` of a string (the whole string when it
contains no `'/'`). -/
def lastSegment (s : String) : Option String :=
  ((splitSlash s.data).getLast?).map String.mk

/-- One step of Node's `normalizeString` (posix): resolve a single path
segment against the already-processed segments, handling `.` and `..`.
`allow` is Node's `allowAboveRoot` (true for relative paths). -/
def normStep (allow : Bool) (res : List (List Char)) (seg : List Char) :
    List (List Char) :=
  if seg = ['.'] then res
  else if seg = ['.', '.'] then
    match res.getLast? with
    | some l => if l = ['.', '.'] then (if allow then res ++ [seg] else res)
                else res.dropLast
    | none => if allow then [seg] else []
  else res ++ [seg]

/-- Join processed segments with `'/'` (no leading or trailing separator). -/
def joinSegs : List (List Char) → List Char
  | [] => []
  | [x] => x
  | x :: y :: xs => x ++ '/' :: joinSegs (y :: xs)

/-- Node `path.posix.normalize`, on character lists: collapse repeated
separators, resolve `.` and `..` segments, keep a leading `/` for absolute
paths and a trailing `/` when the input had one. -/
def posixNormalizeChars (l : List Char) : List Char :=
  if l = [] then ['.']
  else
    let isAbs := l.head? = some '/'
    let trailing := l.getLast? = some '/'
    let segs := (splitSlash l).filter (fun s => s ≠ [])
    let processed := segs.foldl (normStep (!isAbs)) []
    let out := joinSegs processed
    if out = [] then
      if isAbs then ['/'] else if trailing then ['.', '/'] else ['.']
    else
      let out2 := if trailing then out ++ ['/'] else out
      if isAbs then '/' :: out2 else out2

/-- Node `path.posix.normalize` on strings. -/
def posixNormalize (s : String) : String :=
  String.mk (posixNormalizeChars s.data)

/-- Node `path.posix.join(a, b)`: drop empty arguments, join the rest with
`'/'` and normalize; two empty arguments give `"."`. -/
def pathJoin (a b : String) : String :=
  let joined := if a = "" then b else if b = "" then a else a ++ "/" ++ b
  if joined = "" then "." else posixNormalize joined

/-- The option record of `S3Cache` (`defaultOptions` merged with constructor
input).  Only the fields the cache logic reads are modelled; credentials and
logging fields do not influence the modelled operations. -/
structure Options where
  pathPrefix : String := ""
  folderPathDepth : Nat := 2
  folderPathChunkSize : Nat := 2
  checksumAlgorithm : String := "md5"
  checksumEncoding : String := "hex"
  normalizeLowercase : Bool := false
  parseKeyAsPath : Bool := false
  normalizePath : Bool := true
  parseKeyAsUrl : Bool := false
  normalizeUrl : Bool := true
  proactiveExpiry : Bool := false
  stringifyResponses : Bool := true
  ttl : Nat := 0
  ttlUnits : String := "seconds"
  dontConcatPages : Bool := false
  deriving Repr, DecidableEq

/-- A per-call options object: fields present in the JS object override the
instance options (`Object.assign({}, this.options, options)`). -/
structure OptionsPatch where
  pathPrefix : Option String := none
  folderPathDepth : Option Nat := none
  folderPathChunkSize : Option Nat := none
  checksumAlgorithm : Option String := none
  checksumEncoding : Option String := none
  normalizeLowercase : Option Bool := none
  parseKeyAsPath : Option Bool := none
  normalizePath : Option Bool := none
  parseKeyAsUrl : Option Bool := none
  normalizeUrl : Option Bool := none
  proactiveExpiry : Option Bool := none
  stringifyResponses : Option Bool := none
  ttl : Option Nat := none
  ttlUnits : Option String := none
  dontConcatPages : Option Bool := none
  deriving Repr, DecidableEq

/-- `Object.assign({}, base, patch)`: shallow merge, per-call fields win. -/
def mergeOptions (base : Options) (p : OptionsPatch) : Options where
  pathPrefix := p.pathPrefix.getD base.pathPrefix
  folderPathDepth := p.folderPathDepth.getD base.folderPathDepth
  folderPathChunkSize := p.folderPathChunkSize.getD base.folderPathChunkSize
  checksumAlgorithm := p.checksumAlgorithm.getD base.checksumAlgorithm
  checksumEncoding := p.checksumEncoding.getD base.checksumEncoding
  normalizeLowercase := p.normalizeLowercase.getD base.normalizeLowercase
  parseKeyAsPath := p.parseKeyAsPath.getD base.parseKeyAsPath
  normalizePath := p.normalizePath.getD base.normalizePath
  parseKeyAsUrl := p.parseKeyAsUrl.getD base.parseKeyAsUrl
  normalizeUrl := p.normalizeUrl.getD base.normalizeUrl
  proactiveExpiry := p.proactiveExpiry.getD base.proactiveExpiry
  stringifyResponses := p.stringifyResponses.getD base.stringifyResponses
  ttl := p.ttl.getD base.ttl
  ttlUnits := p.ttlUnits.getD base.ttlUnits
  dontConcatPages := p.dontConcatPages.getD base.dontConcatPages

/-- Behavior of the external libraries the source calls.  `digest alg enc s`
is `checksum(s, {algorithm: alg, encoding: enc})`; `base64 s` is
`Buffer.from(s).toString('base64')`; `urlNorm flag s` is the body of
`_normalizeUrl` (legacy `url.parse`/`url.format` with query sorting when
`flag`); `pathFormatParse` is `path.format(path.parse(s))`; `momentAdd now
amt units` is `moment().add(amt, units).unix()` at time `now` (ms). -/
structure ExtLib where
  digest : String → String → String → String
  base64 : String → String
  urlNorm : Bool → String → String
  pathFormatParse : String → String
  momentAdd : Int → Nat → String → Int

/-- `_normalizeUrl(str, options)`: parse as URL, sort the query string when
`options.normalizeUrl`, re-serialize.  The url/querystring library behavior
is carried by `ext.urlNorm`. -/
def normalizeUrlFn (ext : ExtLib) (options : Options) (s : String) : String :=
  ext.urlNorm options.normalizeUrl s

/-- `_normalizePath(str, options)`: `path.format(path.parse(str))`, then
`path.normalize` when `options.normalizePath`. -/
def normalizePathFn (ext : ExtLib) (options : Options) (s : String) : String :=
  let loc := ext.pathFormatParse s
  if options.normalizePath then posixNormalize loc else loc

/-- JS `String.prototype.toLowerCase`, modelled per character (ASCII-range
lowercasing; agrees with JS on ASCII keys). -/
def jsToLowerCase (s : String) : String := String.mk (s.data.map Char.toLower)

/-- The normalization part of `_getPath`: optional lowercasing, then URL or
path normalization (URL takes precedence). -/
def normalizeStage (ext : ExtLib) (options : Options) (key : String) : String :=
  let key := if options.normalizeLowercase then jsToLowerCase key else key
  if options.parseKeyAsUrl then normalizeUrlFn ext options key
  else if options.parseKeyAsPath then normalizePathFn ext options key
  else key

/-- The checksum part of `_getPath`: digest unless the algorithm is the
`"none"` sentinel; with `"none"` and base64 encoding, base64-encode the raw
key; otherwise pass the key through. -/
def checksumStep (ext : ExtLib) (options : Options) (key : String) : String :=
  if options.checksumAlgorithm ≠ "none" then
    ext.digest options.checksumAlgorithm options.checksumEncoding key
  else if options.checksumEncoding = "base64" then ext.base64 key
  else key

/-- The folder-chunking loop of `_getPath`: for each `depth` below
`folderPathDepth`, slice `folderPathChunkSize` characters starting at
`depth * folderPathChunkSize`. -/
def chunkStage (options : Options) (key : String) : List String :=
  (List.range options.folderPathDepth).map (fun d =>
    jsSlice key (d * options.folderPathChunkSize)
      (d * options.folderPathChunkSize + options.folderPathChunkSize))

/-- `_getPath(pathName, options)`.  `options` is the (possibly merged)
options object the caller passed; `instOpts` is `this.options`.  Note the
source guards the prefix step on `options.pathPrefix` but joins
`this.options.pathPrefix`. -/
def getPath (ext : ExtLib) (options instOpts : Options) (pathName : String) :
    String :=
  let key := checksumStep ext options (normalizeStage ext options pathName)
  let chunked := joinStrings "/" (chunkStage options key) ++ "/" ++ key
  if options.pathPrefix ≠ "" then pathJoin instOpts.pathPrefix chunked
  else chunked

deriving instance DecidableEq for Except

/-- An S3 error as the SDK delivers it; only the status code matters to the
cache (`err.statusCode === 404` is the not-found test in `get`). -/
structure S3Err where
  statusCode : Nat
  deriving Repr, DecidableEq

/-- A stored S3 object: `Body` (bytes, modelled as the string the cache
wrote) and the optional `Expires` metadata (unix seconds, as `set` writes
with `moment(...).unix()`). -/
structure S3Object where
  body : String
  expires : Option Int := none
  deriving Repr, DecidableEq

/-- The bucket contents: physical key to object.  `putObject` prepends, so
lookups find the newest write (last-write-wins). -/
def S3State := List (String × S3Object)

/-- Find the object stored under a physical key. -/
def lookupObj (st : S3State) (k : String) : Option S3Object :=
  (st.find? (fun p => p.1 = k)).map (fun p => p.2)

/-- `s3.getObject`: the object, or an error with status 404. -/
def getObject (st : S3State) (k : String) : Except S3Err S3Object :=
  match lookupObj st k with
  | some o => .ok o
  | none => .error ⟨404⟩

/-- `s3.headObject`: same success/404 behavior as `getObject` (metadata). -/
def headObject (st : S3State) (k : String) : Except S3Err S3Object :=
  getObject st k

/-- `s3.deleteObject`: removes the key; succeeds whether or not it exists. -/
def deleteObject (st : S3State) (k : String) : S3State :=
  st.filter (fun p => p.1 ≠ k)

/-- `s3.putObject`: stores (overwrites) the object under the key. -/
def putObject (st : S3State) (k : String) (o : S3Object) : S3State :=
  (k, o) :: st

/-- `_timestampToMoment` on the numeric timestamps the cache writes: a unix
timestamp is multiplied by 1000 to get milliseconds. -/
def timestampToMs (t : Int) : Int := t * 1000

/-- `moment.unix()`: milliseconds floored down to unix seconds. -/
def momentUnix (ms : Int) : Int := Int.fdiv ms 1000

/-- The value a successful `get` yields: `_stringifyResponse` returns
`Body.toString()` when `stringifyResponses`, the raw `Body` buffer
otherwise. -/
inductive CacheValue
  | str (s : String)
  | buf (s : String)
  deriving Repr, DecidableEq

/-- `_stringifyResponse(response, options)`. -/
def stringifyResponse (options : Options) (o : S3Object) : CacheValue :=
  if options.stringifyResponses then .str o.body else .buf o.body

/-- The physical key `get` sends: `_getPath(key, currentOptions)` with
`currentOptions = Object.assign({}, this.options, options)`. -/
def getRequestKey (ext : ExtLib) (inst : Options) (p : OptionsPatch)
    (key : String) : String :=
  getPath ext (mergeOptions inst p) inst key

/-- The physical key `set` sends (same merged derivation as `get`). -/
def setRequestKey (ext : ExtLib) (inst : Options) (p : OptionsPatch)
    (key : String) : String :=
  getPath ext (mergeOptions inst p) inst key

/-- The physical key `del` sends: the source calls `this._getPath(key)`
without the per-call options (the merged variant is commented out). -/
def delRequestKey (ext : ExtLib) (inst : Options) (_p : OptionsPatch)
    (key : String) : String :=
  getPath ext inst inst key

/-- The physical key `head` sends: also `this._getPath(key)`, per-call
options unused for key derivation. -/
def headRequestKey (ext : ExtLib) (inst : Options) (_p : OptionsPatch)
    (key : String) : String :=
  getPath ext inst inst key

/-- The physical key `ttl` sends (it forwards its arguments to `head`). -/
def ttlRequestKey (ext : ExtLib) (inst : Options) (p : OptionsPatch)
    (key : String) : String :=
  headRequestKey ext inst p key

/-- `get(key, options, cb)` as a state transformer.  Sequential semantics of
the `async.waterfall`: fetch, expiry check (strictly-before-now via
`moment.isBefore()`), proactive delete (note: `this.del(key, ...)` derives
its key from the instance options), stringify; the final handler maps a 404
error to a `null` result. -/
def getOp (ext : ExtLib) (inst : Options) (p : OptionsPatch) (nowMs : Int)
    (st : S3State) (key : String) :
    Except S3Err (Option CacheValue) × S3State :=
  let current := mergeOptions inst p
  match getObject st (getRequestKey ext inst p key) with
  | .error e =>
    (if e.statusCode = 404 then .ok none else .error e, st)
  | .ok result =>
    match result.expires with
    | some ts =>
      if timestampToMs ts < nowMs then
        if current.proactiveExpiry then
          (.ok none, deleteObject st (delRequestKey ext inst p key))
        else (.ok none, st)
      else (.ok (some (stringifyResponse current result)), st)
    | none => (.ok (some (stringifyResponse current result)), st)

/-- `set(key, value, options, cb)`: put the body under the merged-options
physical key, attaching `Expires = moment().add(ttl, ttlUnits).unix()` when
the merged `ttl` is truthy. -/
def setOp (ext : ExtLib) (inst : Options) (p : OptionsPatch) (nowMs : Int)
    (st : S3State) (key value : String) : S3State :=
  let current := mergeOptions inst p
  let obj : S3Object :=
    { body := value
      expires := if current.ttl ≠ 0 then
          some (ext.momentAdd nowMs current.ttl current.ttlUnits)
        else none }
  putObject st (setRequestKey ext inst p key) obj

/-- `del(key, options, cb)`: delete at the instance-derived physical key. -/
def delOp (ext : ExtLib) (inst : Options) (p : OptionsPatch)
    (st : S3State) (key : String) : S3State :=
  deleteObject st (delRequestKey ext inst p key)

/-- `head(key, options, cb)`: `headObject` at the instance-derived physical
key; errors (including 404) go to the caller unchanged. -/
def headOp (ext : ExtLib) (inst : Options) (p : OptionsPatch)
    (st : S3State) (key : String) : Except S3Err S3Object :=
  headObject st (headRequestKey ext inst p key)

/-- `ttl(key, options, cb)`: from `head`'s result, `(null, expiry.unix())`
when there is an `Expires` field, otherwise `(err, -1)` (err is null on a
success without `Expires`). -/
def ttlOp (ext : ExtLib) (inst : Options) (p : OptionsPatch)
    (st : S3State) (key : String) : Option S3Err × Int :=
  match headOp ext inst p st key with
  | .error e => (some e, -1)
  | .ok result =>
    match result.expires with
    | some ts => (none, momentUnix (timestampToMs ts))
    | none => (none, -1)

/-- One `listObjectsV2` page.  `contents` is the page of keys, `isTruncated`
and `nextToken` model `IsTruncated` / `NextContinuationToken`. -/
structure ListResult where
  contents : List String
  isTruncated : Bool
  nextToken : Nat
  deriving Repr, DecidableEq

/-- The `Prefix` field `keys` would put in its list request.  The source has
this assignment commented out ("pointless since the hashing will never allow
this to work"), so no prefix ever reaches the backend. -/
def keysListRequestPrefixField (_keyArg : Option String) : Option String :=
  none

/-- Backend `listObjectsV2` over bucket listing `allKeys` with page size
`pageSize` (S3: 1000), honoring a `Prefix` filter when the request carries
one, starting from continuation position `start`. -/
def listObjectsV2 (allKeys : List String) (pre : Option String)
    (pageSize start : Nat) : ListResult :=
  let visible := match pre with
    | some p => allKeys.filter (fun k => String.startsWith k p)
    | none => allKeys
  { contents := (visible.drop start).take pageSize
    isTruncated := decide (start + pageSize < visible.length)
    nextToken := start + pageSize }

/-- The `async.doWhilst` pagination loop of `keys`: request a page, keep the
continuation token while `IsTruncated`, collect pages.  `fuel` bounds the
iteration count (the JS loop runs until the backend stops truncating);
`none` means the fuel ran out before the backend was exhausted. -/
def keysLoop (allKeys : List String) (pre : Option String)
    (pageSize : Nat) : Nat → Nat → Option (List (List String))
  | _, 0 => none
  | start, fuel + 1 =>
    let res := listObjectsV2 allKeys pre pageSize start
    if res.isTruncated then
      (keysLoop allKeys pre pageSize res.nextToken fuel).map
        (fun rest => res.contents :: rest)
    else some [res.contents]

/-- What `keys` hands its callback: the raw page list when the secret
`dontConcatPages` option is set, otherwise one flat list. -/
inductive KeysResult
  | pages (ps : List (List String))
  | flat (l : List String)
  deriving Repr, DecidableEq

/-- `keys([keyArg], [options], cb)`: the optional key argument contributes
nothing to the request (`keysListRequestPrefixField`); pages are collected
and concatenated (a single page is returned as-is, which equals the
concatenation). -/
def keysOp (keyArg : Option String) (inst : Options) (p : OptionsPatch)
    (allKeys : List String) (pageSize fuel : Nat) : Option KeysResult :=
  let current := mergeOptions inst p
  match keysLoop allKeys (keysListRequestPrefixField keyArg) pageSize 0 fuel with
  | none => none
  | some pages =>
    if current.dontConcatPages then some (.pages pages)
    else if pages.length = 1 then some (.flat (pages.headD []))
    else some (.flat (pages.foldl (fun memo arr => memo ++ arr) []))

/-- A JS value passed as the `key` argument: the string the API expects, or
a wrong-typed primitive (the representative is a number). -/
inductive JSKey
  | str (s : String)
  | num (n : Int)
  deriving Repr, DecidableEq

/-- A JS value passed as the `value` argument of `set`: a string, a
wrong-typed primitive (number), a `Buffer`, or an array of numbers (which
`Buffer.from` accepts). -/
inductive JSValue
  | str (s : String)
  | num (n : Int)
  | buffer (b : String)
  | array (elems : List Int)
  deriving Repr, DecidableEq

/-- A synchronous JS exception (TypeError) raised before any request. -/
inductive JsErr
  | typeError
  deriving Repr, DecidableEq

/-- JS string coercion (`'' + v`) for a key value. -/
def jsKeyToString : JSKey → String
  | .str s => s
  | .num n => toString n

/-- `_getPath` under JS dynamic typing.  Each step throws a `TypeError`
exactly where the engine would: `toLowerCase` on a non-string,
`url.parse` / `path.parse` on a non-string, `crypto` digesting a number,
`Buffer.from` a number, `.slice` of a number in the chunk loop.  A number
that survives every step is coerced by string concatenation. -/
def getPathDyn (ext : ExtLib) (options instOpts : Options) (key : JSKey) :
    Except JsErr String :=
  let afterLower : Except JsErr JSKey :=
    if options.normalizeLowercase then
      match key with
      | .str s => .ok (.str (jsToLowerCase s))
      | .num _ => .error .typeError
    else .ok key
  match afterLower with
  | .error e => .error e
  | .ok key =>
    let afterParse : Except JsErr JSKey :=
      if options.parseKeyAsUrl then
        match key with
        | .str s => .ok (.str (normalizeUrlFn ext options s))
        | .num _ => .error .typeError
      else if options.parseKeyAsPath then
        match key with
        | .str s => .ok (.str (normalizePathFn ext options s))
        | .num _ => .error .typeError
      else .ok key
    match afterParse with
    | .error e => .error e
    | .ok key =>
      let afterChecksum : Except JsErr JSKey :=
        if options.checksumAlgorithm ≠ "none" then
          match key with
          | .str s => .ok (.str (ext.digest options.checksumAlgorithm
              options.checksumEncoding s))
          | .num _ => .error .typeError
        else if options.checksumEncoding = "base64" then
          match key with
          | .str s => .ok (.str (ext.base64 s))
          | .num _ => .error .typeError
        else .ok key
      match afterChecksum with
      | .error e => .error e
      | .ok key =>
        let chunks : Except JsErr (List String) :=
          if options.folderPathDepth = 0 then .ok []
          else
            match key with
            | .str s => .ok (chunkStage options s)
            | .num _ => .error .typeError
        match chunks with
        | .error e => .error e
        | .ok cs =>
          let keyStr := joinStrings "/" cs ++ "/" ++ jsKeyToString key
          .ok (if options.pathPrefix ≠ "" then
              pathJoin instOpts.pathPrefix keyStr
            else keyStr)

/-- `Buffer.from(array)`: each entry is truncated to a byte (`value & 255`,
i.e. mod 256); the resulting bytes are modelled as characters. -/
def jsArrayToBuffer (l : List Int) : String :=
  String.mk (l.map (fun n => Char.ofNat (Int.toNat (Int.emod n 256))))

/-- The `Body` coercion of `set`: a Buffer is kept, anything else goes
through `Buffer.from`, which throws a `TypeError` on a number but accepts a
string or an array of numbers. -/
def setBodyDyn : JSValue → Except JsErr String
  | .buffer b => .ok b
  | .str s => .ok s
  | .num _ => .error .typeError
  | .array l => .ok (jsArrayToBuffer l)

/-- The request `get` would issue for a dynamically-typed key: `.ok k` means
`s3.getObject` is called with physical key `k`; `.error` means the call
threw synchronously and no request was issued. -/
def getRequestDyn (ext : ExtLib) (inst : Options) (p : OptionsPatch)
    (key : JSKey) : Except JsErr String :=
  getPathDyn ext (mergeOptions inst p) inst key

/-- The request `set` would issue (key then body, in source order:
`_getPath` runs before `Buffer.from(value)`). -/
def setRequestDyn (ext : ExtLib) (inst : Options) (p : OptionsPatch)
    (key : JSKey) (value : JSValue) : Except JsErr (String × String) :=
  match getPathDyn ext (mergeOptions inst p) inst key with
  | .error e => .error e
  | .ok k =>
    match setBodyDyn value with
    | .error e => .error e
    | .ok b => .ok (k, b)

/-- A concrete `ExtLib` instantiation used by witnesses: an injective stand-in
digest and base64, identity URL/path reformatting, and unit-agnostic time
addition.  Any `ExtLib` works for the general theorems. -/
def ext0 : ExtLib where
  digest := fun alg enc s => alg ++ "-" ++ enc ++ "-" ++ s
  base64 := fun s => "b64-" ++ s
  urlNorm := fun _ s => s
  pathFormatParse := fun s => s
  momentAdd := fun nowMs amt _ => Int.fdiv nowMs 1000 + amt

/-- Concrete option records used by witnesses below: checksum disabled with
various encodings, chunking disabled or degenerate, lowercase
normalization, and a pass-through configuration in which no
key-transforming step runs at all. -/
def optsNoneD0 : Options :=
  { checksumAlgorithm := "none", folderPathDepth := 0 }

def optsNoneB64 : Options :=
  { checksumAlgorithm := "none", checksumEncoding := "base64" }

def optsNoneHex : Options := { checksumAlgorithm := "none" }

def optsChunk0 : Options := { folderPathChunkSize := 0 }

def optsNoneChunk0 : Options :=
  { checksumAlgorithm := "none", folderPathChunkSize := 0 }

def instLower : Options := { normalizeLowercase := true }

def passThroughOpts : Options :=
  { checksumAlgorithm := "none", folderPathDepth := 0 }

def c5cfg : Options := { checksumAlgorithm := "none", pathPrefix := "pre" }


theorem chunkStage_zero (opts : Options) (s : String)
    (hc : opts.folderPathChunkSize = 0) :
    chunkStage opts s = List.replicate opts.folderPathDepth "" := by
  unfold chunkStage
  rw [hc]
  rw [List.eq_replicate_iff]
  constructor
  · simp
  · intro b hb
    simp [List.mem_map] at hb
    rw [hb.2]
    rfl

theorem joinStrings_replicate_empty (m : Nat) :
    joinStrings "/" (List.replicate (m + 1) "") =
      String.mk (List.replicate m '/') := by
  induction m with
  | zero => rfl
  | succ n ih =>
    show joinStrings "/" ("" :: "" :: List.replicate n "") = _
    rw [joinStrings]
    rw [show ("" :: List.replicate n "") = List.replicate (n + 1) "" from rfl]
    rw [ih]
    rfl

theorem replicate_append_cons {α : Type} (n : Nat) (a : α) (l : List α) :
    List.replicate n a ++ a :: l = a :: (List.replicate n a ++ l) := by
  induction n with
  | zero => rfl
  | succ m ih => simp [List.replicate_succ, ih]

/-- C10: with `folderPathDepth = 0` and an empty `pathPrefix`, the derived
physical key is exactly `'/'` followed by the post-checksum key (the
chunk-join formula still contributes a leading separator), so every
physical key begins with `'/'`; with `folderPathChunkSize = 0` the chunk
segments are all empty strings, and (depth at least 2, prefix empty) the
derived key begins with adjacent `'/'` separators. -/
theorem c10_slash_shape (ext : ExtLib) (opts inst : Options) (key s : String) :
    (opts.folderPathDepth = 0 → opts.pathPrefix = "" →
      getPath ext opts inst key =
        "/" ++ checksumStep ext opts (normalizeStage ext opts key))
    ∧ (opts.folderPathChunkSize = 0 →
      chunkStage opts s = List.replicate opts.folderPathDepth "")
    ∧ (opts.folderPathChunkSize = 0 → opts.pathPrefix = "" →
      2 ≤ opts.folderPathDepth →
      ∃ r, getPath ext opts inst key = "//" ++ r) := by
  refine ⟨fun hd hp => ?_, fun hc => chunkStage_zero opts s hc, fun hc hp hd => ?_⟩
  · simp [getPath, hd, hp, chunkStage, joinStrings]
  · obtain ⟨n, hn⟩ : ∃ n, opts.folderPathDepth = n + 2 :=
      ⟨opts.folderPathDepth - 2, by omega⟩
    refine ⟨String.mk (List.replicate n '/') ++
      checksumStep ext opts (normalizeStage ext opts key), ?_⟩
    simp only [getPath, hp, chunkStage_zero opts _ hc, hn, ne_eq]
    rw [if_neg (by simp)]
    rw [show n + 2 = (n + 1) + 1 from rfl, joinStrings_replicate_empty]
    simp [String.ext_iff, replicate_append_cons, List.replicate_succ]

/-- C10 witness: the three conclusions at concrete configurations. -/
theorem c10_slash_shape_witness :
    getPath ext0 optsNoneD0 {} "k" =
      "/" ++ checksumStep ext0 optsNoneD0 (normalizeStage ext0 optsNoneD0 "k")
    ∧ chunkStage optsChunk0 "abc" = List.replicate 2 ""
    ∧ ∃ r, getPath ext0 optsNoneChunk0 {} "k" = "//" ++ r :=
  ⟨(c10_slash_shape ext0 optsNoneD0 {} "k" "abc").1 rfl rfl,
   (c10_slash_shape ext0 optsChunk0 {} "k" "abc").2.1 rfl,
   (c10_slash_shape ext0 optsNoneChunk0 {} "k" "abc").2.2 rfl rfl
     (by decide)⟩

/-- C1 counterexample: with a per-call `checksumAlgorithm` override, the
physical key `get` sends differs from the one `del` sends for the same
logical key and the same per-call options — contradicting the claim that a
per-call addressing option changes the derived physical key for `del` and
`head` exactly as it does for `get` and `set`. -/
theorem c1_counterexample :
    getRequestKey ext0 {} { checksumAlgorithm := some "none" } "abcd" ≠
      delRequestKey ext0 {} { checksumAlgorithm := some "none" } "abcd" := by
  decide

/-- C1 (amended): `get` and `set` derive the physical key from the merged
configuration (per-call options override instance options), but `del` and
`head` (and `ttl`, which forwards its arguments to `head`) ignore per-call
options for key derivation and always use the instance configuration
alone. -/
theorem c1_request_keys (ext : ExtLib) (inst : Options) (p q : OptionsPatch)
    (key : String) :
    getRequestKey ext inst p key = getPath ext (mergeOptions inst p) inst key
    ∧ setRequestKey ext inst p key =
        getPath ext (mergeOptions inst p) inst key
    ∧ delRequestKey ext inst p key = getPath ext inst inst key
    ∧ headRequestKey ext inst p key = getPath ext inst inst key
    ∧ ttlRequestKey ext inst p key = getPath ext inst inst key
    ∧ delRequestKey ext inst p key = delRequestKey ext inst q key
    ∧ headRequestKey ext inst p key = headRequestKey ext inst q key :=
  ⟨rfl, rfl, rfl, rfl, rfl, rfl, rfl⟩

/-- C4: in the checksum step of derive-physical-key, a non-`"none"`
algorithm replaces the key by its digest under the configured algorithm
and encoding; algorithm `"none"` with base64 encoding replaces the key by
the base64 encoding of the raw key; algorithm `"none"` with any other
encoding passes the key through unchanged. -/
theorem c4_checksum_step (ext : ExtLib) (opts : Options) (key : String) :
    (opts.checksumAlgorithm ≠ "none" →
      checksumStep ext opts key =
        ext.digest opts.checksumAlgorithm opts.checksumEncoding key)
    ∧ (opts.checksumAlgorithm = "none" → opts.checksumEncoding = "base64" →
      checksumStep ext opts key = ext.base64 key)
    ∧ (opts.checksumAlgorithm = "none" → opts.checksumEncoding ≠ "base64" →
      checksumStep ext opts key = key) := by
  refine ⟨fun h => ?_, fun h h2 => ?_, fun h h2 => ?_⟩
  · simp [checksumStep, h]
  · simp [checksumStep, h, h2]
  · simp [checksumStep, h, h2]

/-- C4 witness: the three branches evaluated at concrete configurations. -/
theorem c4_checksum_step_witness :
    checksumStep ext0 {} "k" = ext0.digest "md5" "hex" "k"
    ∧ checksumStep ext0 optsNoneB64 "k" = ext0.base64 "k"
    ∧ checksumStep ext0 optsNoneHex "k" = "k" :=
  ⟨(c4_checksum_step ext0 {} "k").1 (by decide),
   (c4_checksum_step ext0 optsNoneB64 "k").2.1 rfl rfl,
   (c4_checksum_step ext0 optsNoneHex "k").2.2 rfl (by decide)⟩

/-- C8: the optional prefix argument of `keys` has no effect: the listing
request carries no `Prefix` field (the assignment is commented out in the
source), and the delivered result is identical with and without the
argument, for every backend state, page size and fuel. -/
theorem c8_keys_arg_noop (keyArg : String) (inst : Options)
    (p : OptionsPatch) (allKeys : List String) (pageSize fuel : Nat) :
    keysOp (some keyArg) inst p allKeys pageSize fuel =
      keysOp none inst p allKeys pageSize fuel
    ∧ keysListRequestPrefixField (some keyArg) = none :=
  ⟨rfl, rfl⟩

theorem lookupObj_deleteObject_self (st : S3State) (k : String) :
    lookupObj (deleteObject st k) k = none := by
  induction st with
  | nil => rfl
  | cons hd tl ih =>
    unfold deleteObject at ih ⊢
    simp only [ne_eq, decide_not] at ih ⊢
    rw [List.filter_cons]
    by_cases h : hd.1 = k
    · simp [h, ih]
    · simp only [lookupObj, List.find?] at ih ⊢
      simp [h, ih]

theorem lookupObj_putObject_self (st : S3State) (k : String) (o : S3Object) :
    lookupObj (putObject st k o) k = some o := by
  simp [putObject, lookupObj, List.find?]

/-- C2: a stored entry whose expiry timestamp is strictly before now is
reported absent by `get` (never the stale payload); the entry is deleted
exactly when `proactiveExpiry` is set in the merged options (the deletion
request targets the instance-derived key, as `this.del` does), and without
`proactiveExpiry` the backend state is untouched. -/
theorem c2_expired_read (ext : ExtLib) (inst : Options) (p : OptionsPatch)
    (nowMs : Int) (st : S3State) (key : String) (obj : S3Object) (e : Int)
    (hlook : lookupObj st (getRequestKey ext inst p key) = some obj)
    (hexp : obj.expires = some e)
    (hpast : timestampToMs e < nowMs) :
    (getOp ext inst p nowMs st key).1 = .ok none
    ∧ ((mergeOptions inst p).proactiveExpiry = false →
        (getOp ext inst p nowMs st key).2 = st)
    ∧ ((mergeOptions inst p).proactiveExpiry = true →
        (getOp ext inst p nowMs st key).2 =
          deleteObject st (delRequestKey ext inst p key)
        ∧ lookupObj (getOp ext inst p nowMs st key).2
            (delRequestKey ext inst p key) = none) := by
  have hget : getObject st (getRequestKey ext inst p key) = .ok obj := by
    simp [getObject, hlook]
  by_cases hb : (mergeOptions inst p).proactiveExpiry = true
  · refine ⟨?_, ?_, ?_⟩
    · simp [getOp, hget, hexp, hpast, hb]
    · intro h; rw [hb] at h; exact absurd h (by decide)
    · intro _
      constructor
      · simp [getOp, hget, hexp, hpast, hb]
      · simp [getOp, hget, hexp, hpast, hb, lookupObj_deleteObject_self]
  · have hb' : (mergeOptions inst p).proactiveExpiry = false := by
      revert hb; cases (mergeOptions inst p).proactiveExpiry <;> simp
    refine ⟨?_, ?_, ?_⟩
    · simp [getOp, hget, hexp, hpast, hb']
    · intro _; simp [getOp, hget, hexp, hpast, hb']
    · intro h; exact absurd h hb

/-- C2 witness: an entry expired at unix second 10 read at 10001 ms. -/
theorem c2_expired_read_witness :
    lookupObj [("md/5-/md5-hex-k", ⟨"v", some 10⟩)]
        (getRequestKey ext0 {} {} "k") = some ⟨"v", some 10⟩
    ∧ timestampToMs 10 < 10001
    ∧ (getOp ext0 {} {} 10001 [("md/5-/md5-hex-k", ⟨"v", some 10⟩)] "k").1 =
        .ok none
    ∧ ((mergeOptions {} {}).proactiveExpiry = false →
        (getOp ext0 {} {} 10001 [("md/5-/md5-hex-k", ⟨"v", some 10⟩)] "k").2 =
          [("md/5-/md5-hex-k", ⟨"v", some 10⟩)]) :=
  ⟨by decide, by decide,
   (c2_expired_read ext0 {} {} 10001 _ "k" ⟨"v", some 10⟩ 10 (by decide) rfl
     (by decide)).1,
   (c2_expired_read ext0 {} {} 10001 _ "k" ⟨"v", some 10⟩ 10 (by decide) rfl
     (by decide)).2.1⟩

/-- C3: a backend 404 makes `get` succeed with an absent (`null`) result;
the same 404 is delivered to the caller as an error by `head` and `ttl`;
and `ttl` returns the sentinel `-1` when the entry carries no `Expires`
timestamp. -/
theorem c3_not_found (ext : ExtLib) (inst : Options) (p : OptionsPatch)
    (nowMs : Int) (st : S3State) (key : String) :
    (lookupObj st (getRequestKey ext inst p key) = none →
      (getOp ext inst p nowMs st key).1 = .ok none)
    ∧ (lookupObj st (headRequestKey ext inst p key) = none →
      headOp ext inst p st key = .error ⟨404⟩
      ∧ ttlOp ext inst p st key = (some ⟨404⟩, -1))
    ∧ (∀ o, lookupObj st (headRequestKey ext inst p key) = some o →
      o.expires = none → ttlOp ext inst p st key = (none, -1)) := by
  refine ⟨fun h => ?_, fun h => ⟨?_, ?_⟩, fun o ho hexp => ?_⟩
  · simp [getOp, getObject, h]
  · simp [headOp, headObject, getObject, h]
  · simp [ttlOp, headOp, headObject, getObject, h]
  · simp [ttlOp, headOp, headObject, getObject, ho, hexp]

/-- C3 witness: an empty bucket, and a bucket holding an entry without
expiry metadata. -/
theorem c3_not_found_witness :
    lookupObj [] (getRequestKey ext0 {} {} "k") = none
    ∧ (getOp ext0 {} {} 0 [] "k").1 = .ok none
    ∧ headOp ext0 {} {} [] "k" = .error ⟨404⟩
    ∧ ttlOp ext0 {} {} [] "k" = (some ⟨404⟩, -1)
    ∧ lookupObj [("md/5-/md5-hex-k", ⟨"v", none⟩)]
        (headRequestKey ext0 {} {} "k") = some ⟨"v", none⟩
    ∧ ttlOp ext0 {} {} [("md/5-/md5-hex-k", ⟨"v", none⟩)] "k" = (none, -1) :=
  ⟨by decide,
   (c3_not_found ext0 {} {} 0 [] "k").1 (by decide),
   ((c3_not_found ext0 {} {} 0 [] "k").2.1 (by decide)).1,
   ((c3_not_found ext0 {} {} 0 [] "k").2.1 (by decide)).2,
   by decide,
   (c3_not_found ext0 {} {} 0 [("md/5-/md5-hex-k", ⟨"v", none⟩)] "k").2.2
     ⟨"v", none⟩ (by decide) rfl⟩

/-- C6: two logical keys that coincide after the configured normalization
steps derive the same physical key, and hence a `get` of one after a `set`
of the other (same fixed configuration, no ttl) returns the stored
value. -/
theorem c6_normalized_equal (ext : ExtLib) (inst : Options) (p : OptionsPatch)
    (nowMs now2 : Int) (st : S3State) (k1 k2 v : String)
    (hnorm : normalizeStage ext (mergeOptions inst p) k1 =
      normalizeStage ext (mergeOptions inst p) k2)
    (httl : (mergeOptions inst p).ttl = 0)
    (hstr : (mergeOptions inst p).stringifyResponses = true) :
    getPath ext (mergeOptions inst p) inst k1 =
      getPath ext (mergeOptions inst p) inst k2
    ∧ (getOp ext inst p now2 (setOp ext inst p nowMs st k1 v) k2).1 =
        .ok (some (.str v)) := by
  have hpath : getPath ext (mergeOptions inst p) inst k1 =
      getPath ext (mergeOptions inst p) inst k2 := by
    unfold getPath
    rw [hnorm]
  refine ⟨hpath, ?_⟩
  have hkeys : setRequestKey ext inst p k1 = getRequestKey ext inst p k2 :=
    hpath
  have hobj : lookupObj (setOp ext inst p nowMs st k1 v)
      (getRequestKey ext inst p k2) = some ⟨v, none⟩ := by
    rw [← hkeys]
    unfold setOp
    simp only [httl]
    simpa using lookupObj_putObject_self st (setRequestKey ext inst p k1) _
  simp [getOp, getObject, hobj, stringifyResponse, hstr]

/-- C6 witness: `set('MixedCase', 'v')` under `normalizeLowercase`, then
`get('mixedcase')` and `get('MIXEDCASE')` both return `'v'`. -/
theorem c6_normalized_equal_witness :
    normalizeStage ext0 (mergeOptions instLower {}) "MixedCase" =
      normalizeStage ext0 (mergeOptions instLower {}) "mixedcase"
    ∧ (getOp ext0 instLower {} 0
        (setOp ext0 instLower {} 0 [] "MixedCase" "v") "mixedcase").1 =
        .ok (some (.str "v"))
    ∧ (getOp ext0 instLower {} 0
        (setOp ext0 instLower {} 0 [] "MixedCase" "v") "MIXEDCASE").1 =
        .ok (some (.str "v")) :=
  ⟨by decide,
   (c6_normalized_equal ext0 instLower {} 0 0 [] "MixedCase" "mixedcase" "v"
     (by decide) rfl rfl).2,
   (c6_normalized_equal ext0 instLower {} 0 0 [] "MixedCase" "MIXEDCASE" "v"
     (by decide) rfl rfl).2⟩


/-- Helper: `Array.prototype.reduce((m, a) => m.concat(a), [])` flattens. -/
theorem foldl_append_eq_flatten {α : Type} (ps : List (List α))
    (acc : List α) :
    ps.foldl (fun memo arr => memo ++ arr) acc = acc ++ ps.flatten := by
  induction ps generalizing acc with
  | nil => simp
  | cons hd tl ih => simp [List.foldl_cons, ih]

/-- Helper: one unfolding step of the pagination loop. -/
theorem keysLoop_succ (allKeys : List String) (pre : Option String)
    (pageSize start fuel : Nat) :
    keysLoop allKeys pre pageSize start (fuel + 1) =
      if (listObjectsV2 allKeys pre pageSize start).isTruncated then
        (keysLoop allKeys pre pageSize
            (listObjectsV2 allKeys pre pageSize start).nextToken fuel).map
          (fun rest =>
            (listObjectsV2 allKeys pre pageSize start).contents :: rest)
      else some [(listObjectsV2 allKeys pre pageSize start).contents] := rfl

/-- Helper: with positive page size and enough fuel, the pagination loop
terminates and its pages concatenate to the tail of the listing from
`start`. -/
theorem keysLoop_complete (allKeys : List String) (pageSize : Nat)
    (hps : 0 < pageSize) :
    ∀ (f start : Nat), allKeys.length ≤ start + f * pageSize →
    ∃ pages, keysLoop allKeys none pageSize start (f + 1) = some pages
      ∧ pages.flatten = allKeys.drop start := by
  intro f
  induction f with
  | zero =>
    intro start hle
    simp only [Nat.zero_mul, Nat.add_zero] at hle
    have hnt : ¬(start + pageSize < allKeys.length) := by omega
    refine ⟨[(allKeys.drop start).take pageSize], ?_, ?_⟩
    · rw [keysLoop_succ]
      simp [listObjectsV2, hnt]
    · have hnil : allKeys.drop start = [] := List.drop_eq_nil_of_le hle
      simp [hnil]
  | succ g ih =>
    intro start hle
    by_cases htr : start + pageSize < allKeys.length
    · obtain ⟨pages, hloop, hjoin⟩ := ih (start + pageSize) (by
        have hmul : (g + 1) * pageSize = pageSize + g * pageSize := by ring
        omega)
      refine ⟨(allKeys.drop start).take pageSize :: pages, ?_, ?_⟩
      · rw [keysLoop_succ]
        simp only [listObjectsV2, htr]
        simp [hloop]
      · rw [List.flatten_cons, hjoin]
        rw [← List.drop_drop]
        exact List.take_append_drop pageSize (allKeys.drop start)
    · refine ⟨[(allKeys.drop start).take pageSize], ?_, ?_⟩
      · rw [keysLoop_succ]
        simp [listObjectsV2, htr]
      · have hlen : (allKeys.drop start).length ≤ pageSize := by
          simp only [List.length_drop]
          omega
        simp [List.take_of_length_le hlen]

/-- C7: with a positive page size, `keys` (without `dontConcatPages`)
paginates until the backend stops truncating and delivers exactly the
stored listing — every entry once, no duplicates, no omissions. -/
theorem c7_keys_pagination (keyArg : Option String) (inst : Options)
    (p : OptionsPatch) (allKeys : List String) (pageSize : Nat)
    (hps : 0 < pageSize)
    (hdc : (mergeOptions inst p).dontConcatPages = false) :
    keysOp keyArg inst p allKeys pageSize (allKeys.length + 1) =
      some (.flat allKeys) := by
  obtain ⟨pages, hloop, hjoin⟩ :=
    keysLoop_complete allKeys pageSize hps allKeys.length 0
      (by have := Nat.le_mul_of_pos_right allKeys.length hps; omega)
  have hloop' : keysLoop allKeys (keysListRequestPrefixField keyArg) pageSize 0
      (allKeys.length + 1) = some pages := by
    cases keyArg <;> exact hloop
  simp only [keysOp, hloop', hdc]
  simp only [List.drop_zero] at hjoin
  by_cases hone : pages.length = 1
  · obtain ⟨x, hx⟩ : ∃ x, pages = [x] := by
      cases pages with
      | nil => simp at hone
      | cons a tl =>
        cases tl with
        | nil => exact ⟨a, rfl⟩
        | cons b tl2 => simp at hone
    subst hx
    simp only [hone, if_true]
    simp only [List.flatten_cons, List.flatten_nil, List.append_nil] at hjoin
    simp [hjoin]
  · simp only [hone, if_false]
    rw [foldl_append_eq_flatten, List.nil_append, hjoin]
    simp

/-- C7 witness: five entries with page size two (three pages). -/
theorem c7_keys_pagination_witness :
    0 < 2
    ∧ keysOp none {} {} ["a", "b", "c", "d", "e"] 2 6 =
        some (.flat ["a", "b", "c", "d", "e"]) :=
  ⟨by decide,
   c7_keys_pagination none {} {} ["a", "b", "c", "d", "e"] 2 (by decide) rfl⟩

/-- Helper: for a string key, the dynamically-typed `_getPath` never throws
and agrees with the plain embedding. -/
theorem getPathDyn_str (ext : ExtLib) (options instOpts : Options)
    (s : String) :
    getPathDyn ext options instOpts (.str s) =
      .ok (getPath ext options instOpts s) := by
  unfold getPathDyn getPath normalizeStage checksumStep
  by_cases h1 : options.normalizeLowercase <;>
    by_cases h2 : options.parseKeyAsUrl <;>
      by_cases h3 : options.parseKeyAsPath <;>
        by_cases h4 : options.checksumAlgorithm = "none" <;>
          by_cases h5 : options.checksumEncoding = "base64" <;>
            by_cases h6 : options.folderPathDepth = 0 <;>
              simp [h1, h2, h3, h4, h5, h6, chunkStage, jsKeyToString,
                joinStrings]

/-- C9 counterexample: under the pass-through configuration, a numeric key
does not throw: `get` goes on to issue a backend request whose physical key
is the string coercion of the number. -/
theorem c9_counterexample :
    getRequestDyn ext0 passThroughOpts {} (.num 5) = .ok "/5" := by
  decide

/-- C9 (amended): a wrong-typed (numeric) key throws a synchronous
`TypeError` before any request whenever at least one key-transforming step
runs (lowercasing, URL/path parsing, checksumming, base64 encoding, or
folder chunking with positive depth — in particular under the default
configuration); `set` with a numeric value always throws synchronously in
`Buffer.from`, in every configuration, while string and `Buffer` values
are accepted — and so is an array value, whose entries `Buffer.from`
truncates to bytes, so that `set` issues a request rather than
throwing. -/
theorem c9_wrong_typed (ext : ExtLib) (inst : Options) (p : OptionsPatch)
    (n m : Int) (s b : String) (l : List Int) :
    ((mergeOptions inst p).normalizeLowercase = true
      ∨ (mergeOptions inst p).parseKeyAsUrl = true
      ∨ (mergeOptions inst p).parseKeyAsPath = true
      ∨ (mergeOptions inst p).checksumAlgorithm ≠ "none"
      ∨ (mergeOptions inst p).checksumEncoding = "base64"
      ∨ (mergeOptions inst p).folderPathDepth ≠ 0 →
      getRequestDyn ext inst p (.num n) = .error .typeError)
    ∧ setRequestDyn ext inst p (.str s) (.num m) = .error .typeError
    ∧ setBodyDyn (.num m) = .error .typeError
    ∧ setBodyDyn (.str s) = .ok s
    ∧ setBodyDyn (.buffer b) = .ok b
    ∧ setRequestDyn ext inst p (.str s) (.array l) =
        .ok (getPath ext (mergeOptions inst p) inst s, jsArrayToBuffer l) := by
  refine ⟨fun h => ?_, ?_, rfl, rfl, rfl, ?_⟩
  · unfold getRequestDyn getPathDyn
    rcases h with h | h | h | h | h | h <;>
      by_cases h1 : (mergeOptions inst p).normalizeLowercase <;>
        by_cases h2 : (mergeOptions inst p).parseKeyAsUrl <;>
          by_cases h3 : (mergeOptions inst p).parseKeyAsPath <;>
            by_cases h4 : (mergeOptions inst p).checksumAlgorithm = "none" <;>
              by_cases h5 :
                  (mergeOptions inst p).checksumEncoding = "base64" <;>
                simp_all
  · unfold setRequestDyn
    rw [getPathDyn_str]
    rfl
  · unfold setRequestDyn
    rw [getPathDyn_str]
    rfl

/-- C9 witness: the default configuration checksums, so a numeric key
throws for `get`; a numeric value throws for `set` both there and in the
pass-through configuration, while an array value yields a request. -/
theorem c9_wrong_typed_witness :
    (mergeOptions {} {}).checksumAlgorithm ≠ "none"
    ∧ getRequestDyn ext0 {} {} (.num 5) = .error .typeError
    ∧ setRequestDyn ext0 {} {} (.str "k") (.num 7) = .error .typeError
    ∧ setRequestDyn ext0 passThroughOpts {} (.str "k") (.num 7) =
        .error .typeError
    ∧ setRequestDyn ext0 {} {} (.str "k") (.array [1, 2, 300]) =
        .ok (getPath ext0 (mergeOptions {} {}) {} "k",
          jsArrayToBuffer [1, 2, 300]) :=
  ⟨by decide,
   (c9_wrong_typed ext0 {} {} 5 7 "k" "b" [1, 2, 300]).1
     (Or.inr (Or.inr (Or.inr (Or.inl (by decide))))),
   (c9_wrong_typed ext0 {} {} 5 7 "k" "b" [1, 2, 300]).2.1,
   (c9_wrong_typed ext0 passThroughOpts {} 5 7 "k" "b" [1, 2, 300]).2.1,
   (c9_wrong_typed ext0 {} {} 5 7 "k" "b" [1, 2, 300]).2.2.2.2.2⟩

theorem data_append (s t : String) : (s ++ t).data = s.data ++ t.data := by
  cases s
  cases t
  rfl

theorem eq_empty_of_data_eq_nil (s : String) (h : s.data = []) : s = "" := by
  cases s
  simp_all

theorem splitSlashAux_append_slash (a b : List Char) :
    ∀ acc, splitSlashAux (a ++ '/' :: b) acc =
      splitSlashAux a acc ++ splitSlash b := by
  induction a with
  | nil =>
    intro acc
    simp [splitSlashAux, splitSlash]
  | cons c cs ih =>
    intro acc
    by_cases h : c = '/'
    · subst h
      simp [splitSlashAux, splitSlash, ih]
    · simp [splitSlashAux, h, ih]

theorem splitSlashAux_no_slash (l : List Char) (h : ∀ c ∈ l, c ≠ '/') :
    ∀ acc, splitSlashAux l acc = [acc.reverse ++ l] := by
  induction l with
  | nil =>
    intro acc
    simp [splitSlashAux]
  | cons c cs ih =>
    intro acc
    have hc : c ≠ '/' := h c (by simp)
    rw [splitSlashAux, if_neg hc, ih (fun d hd => h d (by simp [hd]))]
    simp

theorem splitSlash_no_slash (l : List Char) (h : ∀ c ∈ l, c ≠ '/') :
    splitSlash l = [l] := by
  rw [splitSlash, splitSlashAux_no_slash l h]
  simp

theorem getLast?_splitSlash_append (x post : List Char)
    (hns : ∀ c ∈ post, c ≠ '/') :
    (splitSlash (x ++ '/' :: post)).getLast? = some post := by
  rw [splitSlash, splitSlashAux_append_slash, splitSlash_no_slash post hns]
  exact List.getLast?_concat _

theorem joinSegs_append_single (l : List (List Char)) (post : List Char)
    (h : l ≠ []) :
    joinSegs (l ++ [post]) = joinSegs l ++ '/' :: post := by
  induction l with
  | nil => exact absurd rfl h
  | cons a tl ih =>
    cases tl with
    | nil => simp [joinSegs]
    | cons b tl2 =>
      have ihh := ih (by simp)
      simp only [List.cons_append] at ihh ⊢
      rw [joinSegs, ihh, joinSegs]
      simp

theorem normStep_normal (allow : Bool) (res : List (List Char))
    (post : List Char) (h1 : post ≠ ['.']) (h2 : post ≠ ['.', '.']) :
    normStep allow res post = res ++ [post] := by
  simp [normStep, h1, h2]

theorem foldl_normStep_append (allow : Bool) (init : List (List Char))
    (segs : List (List Char)) (post : List Char)
    (h1 : post ≠ ['.']) (h2 : post ≠ ['.', '.']) :
    (segs ++ [post]).foldl (normStep allow) init =
      segs.foldl (normStep allow) init ++ [post] := by
  rw [List.foldl_append]
  simp [normStep_normal allow _ post h1 h2]

theorem splitSlash_cons_slash (l : List Char) :
    splitSlash ('/' :: l) = [] :: splitSlash l := by
  simp [splitSlash, splitSlashAux]

theorem posixNormalizeChars_lastSeg (x post : List Char)
    (hne : post ≠ []) (hns : ∀ c ∈ post, c ≠ '/')
    (h1 : post ≠ ['.']) (h2 : post ≠ ['.', '.']) :
    (splitSlash (posixNormalizeChars (x ++ '/' :: post))).getLast? =
      some post := by
  have hpne : x ++ '/' :: post ≠ [] := by simp
  have htrail : ¬((x ++ '/' :: post).getLast? = some '/') := by
    rw [List.getLast?_append_cons]
    cases post with
    | nil => exact absurd rfl hne
    | cons c cs =>
      rw [List.getLast?_cons_cons]
      intro hcontra
      obtain ⟨hx, heq⟩ := List.mem_getLast?_eq_getLast hcontra
      exact hns '/' (heq ▸ List.getLast_mem hx) rfl
  have hsegs : ((splitSlash (x ++ '/' :: post)).filter (fun s => s ≠ [])) =
      ((splitSlash x).filter (fun s => s ≠ [])) ++ [post] := by
    rw [splitSlash, splitSlashAux_append_slash, splitSlash_no_slash post hns,
      ← splitSlash, List.filter_append]
    simp [hne]
  unfold posixNormalizeChars
  rw [if_neg hpne]
  simp only [htrail, if_false, hsegs,
    foldl_normStep_append _ _ _ post h1 h2]
  generalize ((splitSlash x).filter (fun s => decide (s ≠ []))).foldl
    (normStep (!decide ((x ++ '/' :: post).head? = some '/'))) [] = pr
  cases pr with
  | nil =>
    simp only [List.nil_append]
    rw [show joinSegs [post] = post from rfl]
    rw [if_neg hne]
    by_cases habs : (x ++ '/' :: post).head? = some '/'
    · rw [if_pos habs, splitSlash_cons_slash, splitSlash_no_slash post hns]
      simp
    · rw [if_neg habs, splitSlash_no_slash post hns]
      simp
  | cons a rest =>
    rw [joinSegs_append_single (a :: rest) post (by simp)]
    rw [if_neg (by simp)]
    by_cases habs : (x ++ '/' :: post).head? = some '/'
    · rw [if_pos habs]
      rw [show '/' :: (joinSegs (a :: rest) ++ '/' :: post) =
        ('/' :: joinSegs (a :: rest)) ++ '/' :: post from rfl]
      exact getLast?_splitSlash_append _ post hns
    · rw [if_neg habs]
      exact getLast?_splitSlash_append _ post hns

theorem eq_of_data_eq (s t : String) (h : s.data = t.data) : s = t := by
  cases s
  cases t
  simp_all

theorem lastSegment_of_data_append (s : String) (x post : List Char)
    (hd : s.data = x ++ '/' :: post) (hns : ∀ c ∈ post, c ≠ '/') :
    lastSegment s = some (String.mk post) := by
  unfold lastSegment
  rw [hd, getLast?_splitSlash_append x post hns]
  rfl

theorem lastSegment_posixNormalize (s : String) (x post : List Char)
    (hd : s.data = x ++ '/' :: post)
    (hne : post ≠ []) (hns : ∀ c ∈ post, c ≠ '/')
    (h1 : post ≠ ['.']) (h2 : post ≠ ['.', '.']) :
    lastSegment (posixNormalize s) = some (String.mk post) := by
  unfold lastSegment posixNormalize
  rw [show (String.mk (posixNormalizeChars s.data)).data =
    posixNormalizeChars s.data from rfl]
  rw [hd, posixNormalizeChars_lastSeg x post hne hns h1 h2]
  rfl

/-- Helper: the final path segment of a derived physical key is the full
post-checksum key, for any depth/chunk-size override, provided the
post-checksum key is a well-formed single segment (nonempty, no `'/'`, not
`.` or `..` — true of any hex digest). -/
theorem getPath_lastSegment (ext : ExtLib) (cfg inst : Options) (k : String)
    (d c : Nat)
    (hne : (checksumStep ext cfg (normalizeStage ext cfg k)).data ≠ [])
    (hns : ∀ ch ∈ (checksumStep ext cfg (normalizeStage ext cfg k)).data,
      ch ≠ '/')
    (h1 : (checksumStep ext cfg (normalizeStage ext cfg k)).data ≠ ['.'])
    (h2 : (checksumStep ext cfg (normalizeStage ext cfg k)).data ≠
      ['.', '.']) :
    lastSegment (getPath ext
        { cfg with folderPathDepth := d, folderPathChunkSize := c } inst k) =
      some (checksumStep ext cfg (normalizeStage ext cfg k)) := by
  have hpost : checksumStep ext
      { cfg with folderPathDepth := d, folderPathChunkSize := c }
      (normalizeStage ext
        { cfg with folderPathDepth := d, folderPathChunkSize := c } k) =
      checksumStep ext cfg (normalizeStage ext cfg k) := rfl
  have hmk : String.mk (checksumStep ext cfg (normalizeStage ext cfg k)).data =
      checksumStep ext cfg (normalizeStage ext cfg k) := rfl
  set cfg2 : Options :=
    { cfg with folderPathDepth := d, folderPathChunkSize := c } with hcfg2
  set postStr := checksumStep ext cfg (normalizeStage ext cfg k) with hpostStr
  set chunked := joinStrings "/" (chunkStage cfg2 postStr) ++ "/" ++ postStr
    with hchunked
  have hchunkdata : chunked.data =
      (joinStrings "/" (chunkStage cfg2 postStr)).data ++ '/' :: postStr.data := by
    rw [hchunked, data_append, data_append]
    simp
  have hchne : chunked ≠ "" := by
    intro h
    have hcd := congrArg String.data h
    rw [hchunkdata] at hcd
    simp at hcd
  show lastSegment (getPath ext cfg2 inst k) = some postStr
  unfold getPath
  rw [show checksumStep ext cfg2 (normalizeStage ext cfg2 k) = postStr from rfl]
  by_cases hp : cfg2.pathPrefix ≠ ""
  · rw [if_pos hp]
    unfold pathJoin
    by_cases hi : inst.pathPrefix = ""
    · rw [if_pos hi, if_neg hchne]
      rw [← hmk]
      exact lastSegment_posixNormalize chunked _ _ hchunkdata hne hns h1 h2
    · rw [if_neg hi, if_neg hchne]
      have hjne : inst.pathPrefix ++ "/" ++ chunked ≠ "" := by
        intro h
        have hcd := congrArg String.data h
        rw [data_append, data_append] at hcd
        simp at hcd
      rw [if_neg hjne]
      rw [← hmk]
      refine lastSegment_posixNormalize _
        (inst.pathPrefix.data ++ '/' ::
          (joinStrings "/" (chunkStage cfg2 postStr)).data)
        postStr.data ?_ hne hns h1 h2
      rw [data_append, data_append, hchunkdata]
      simp
  · rw [if_neg hp]
    rw [← hmk]
    exact lastSegment_of_data_append chunked _ _ hchunkdata hns

/-- C5: changing only `folderPathDepth` / `folderPathChunkSize` leaves the
post-checksum key unchanged and, as long as that key is a single storage
segment (nonempty, slash-free, not `.`/`..` — as every hex digest is), the
final path segment of the derived physical key is that full post-checksum
key under both configurations. -/
theorem c5_chunk_invariance (ext : ExtLib) (cfg inst : Options) (k : String)
    (d1 c1 d2 c2 : Nat)
    (hne : checksumStep ext cfg (normalizeStage ext cfg k) ≠ "")
    (hns : ∀ ch ∈ (checksumStep ext cfg (normalizeStage ext cfg k)).data,
      ch ≠ '/')
    (hdot : checksumStep ext cfg (normalizeStage ext cfg k) ≠ ".")
    (hdd : checksumStep ext cfg (normalizeStage ext cfg k) ≠ "..") :
    checksumStep ext
        { cfg with folderPathDepth := d1, folderPathChunkSize := c1 }
        (normalizeStage ext
          { cfg with folderPathDepth := d1, folderPathChunkSize := c1 } k) =
      checksumStep ext
        { cfg with folderPathDepth := d2, folderPathChunkSize := c2 }
        (normalizeStage ext
          { cfg with folderPathDepth := d2, folderPathChunkSize := c2 } k)
    ∧ lastSegment (getPath ext
        { cfg with folderPathDepth := d1, folderPathChunkSize := c1 }
        inst k) = some (checksumStep ext cfg (normalizeStage ext cfg k))
    ∧ lastSegment (getPath ext
        { cfg with folderPathDepth := d2, folderPathChunkSize := c2 }
        inst k) = some (checksumStep ext cfg (normalizeStage ext cfg k)) := by
  have hne' : (checksumStep ext cfg (normalizeStage ext cfg k)).data ≠ [] :=
    fun h => hne (eq_empty_of_data_eq_nil _ h)
  have h1 : (checksumStep ext cfg (normalizeStage ext cfg k)).data ≠ ['.'] :=
    fun h => hdot (eq_of_data_eq _ "." (by rw [h]))
  have h2 : (checksumStep ext cfg (normalizeStage ext cfg k)).data ≠
      ['.', '.'] :=
    fun h => hdd (eq_of_data_eq _ ".." (by rw [h]))
  exact ⟨rfl,
    getPath_lastSegment ext cfg inst k d1 c1 hne' hns h1 h2,
    getPath_lastSegment ext cfg inst k d2 c2 hne' hns h1 h2⟩

/-- C5 witness: depth/chunk (0,0) versus (3,1) over the key `abcd` with a
nonempty prefix; the final segment is `abcd` both times. -/
theorem c5_chunk_invariance_witness :
    checksumStep ext0 c5cfg (normalizeStage ext0 c5cfg "abcd") = "abcd"
    ∧ lastSegment (getPath ext0
        { c5cfg with folderPathDepth := 0, folderPathChunkSize := 0 }
        c5cfg "abcd") = some "abcd"
    ∧ lastSegment (getPath ext0
        { c5cfg with folderPathDepth := 3, folderPathChunkSize := 1 }
        c5cfg "abcd") = some "abcd" :=
  ⟨by decide,
   (c5_chunk_invariance ext0 c5cfg c5cfg "abcd" 0 0 3 1 (by decide)
     (by decide) (by decide) (by decide)).2.1,
   (c5_chunk_invariance ext0 c5cfg c5cfg "abcd" 0 0 3 1 (by decide)
     (by decide) (by decide) (by decide)).2.2⟩
